import Mathlib

/-
Verification of the on-chain service contract adapter
(secret_store/src/listener/service_contract.rs).

The adapter is embedded shallowly: the external collaborators (blockchain
client, sync provider, signing primitive, contract call codec) are fields of
an explicit environment record, the cached contract handle is an explicit
state record, and each public operation of `OnChainServiceContract` becomes a
pure Lean function over those records.  Addresses, hashes, request ids,
thresholds and encoded call payloads are modelled as `Nat` (the zero address
is `0`); fallible collaborator calls return `Except String`.
-/

namespace SecretStore

/-- Service task handed to the cluster scheduler.  The only variant produced
by this component is `GenerateServerKey(request_id, threshold)`. -/
inductive ServiceTask where
  | GenerateServerKey (server_key_id : Nat) (threshold : Nat)
deriving DecidableEq, Repr

/-- One event log entry: the emitting contract address and the topic list. -/
structure LogEntryT where
  address : Nat
  topics : List Nat
deriving DecidableEq, Repr

/-- Sync provider (`ethsync::SyncProvider`): `status().is_syncing(queue_info)`
collapsed to one boolean function of the client's queue info. -/
structure SyncProviderT where
  is_syncing : Nat → Bool

/-- Blockchain client (`ethcore::client::Client`), restricted to the calls the
adapter makes.  `requests_count` is the decoded result of the
`server_key_generation_requests_count` contract call; `get_request` is the
decoded result of `get_server_key_generation_request(node_address, index)`,
yielding `(server_key_id, threshold, is_confirmed)`; `logs_in_range` is the
raw (unfiltered) set of log entries the client holds for a block range. -/
structure ClientT where
  queue_info : Nat
  registry_address : Option Nat
  logs_in_range : Nat → Nat → List LogEntryT
  requests_count : Except String Nat
  get_request : Nat → Nat → Except String (Nat × Nat × Bool)
  transact_contract : Nat → Nat → Except String Nat

/-- The environment of one `OnChainServiceContract` value: weak references to
the client and sync provider (`none` = the weak reference is dead), the hash
primitive, the node key pair's signing operation, the generated codec's
`encode_server_key_generated_input` (arguments: request id, key, signature),
and this node's own address (`public_to_address(self_key_pair.public())`). -/
structure Env where
  client : Option ClientT
  sync : Option SyncProviderT
  keccak_str : String → Nat
  keccak_key : Nat → Nat
  sign : Nat → Except String Nat
  encode_server_key_generated_input : Nat → Nat → Nat → Except String Nat
  self_address : Nat

/-- The cached contract handle (`RwLock<Arc<SecretStoreService>>`): the codec
is bound to the stored address, so the handle's observable content is the
address. -/
structure ContractState where
  address : Nat
deriving DecidableEq, Repr

/-- The event name literal `b"ServerKeyRequested(bytes32,uint256)"`. -/
def SERVER_KEY_REQUESTED_EVENT_NAME : String := "ServerKeyRequested(bytes32,uint256)"

/-- `SERVER_KEY_REQUESTED_EVENT_NAME_HASH = keccak(SERVER_KEY_REQUESTED_EVENT_NAME)`. -/
def SERVER_KEY_REQUESTED_EVENT_NAME_HASH (env : Env) : Nat :=
  env.keccak_str SERVER_KEY_REQUESTED_EVENT_NAME

/-- Modelled from the spec: the per-position topic constraint of the chain
client's log query (the `topics` field of `ethcore::filter::Filter`, not part
of this excerpt).  Position `i` matches when the filter slot is `none`
(wildcard) or the entry's topic at `i` is listed; a `some` slot beyond the
entry's topics fails. -/
def topics_match : List (Option (List Nat)) → List Nat → Bool
  | [], _ => true
  | none :: rest, [] => topics_match rest []
  | none :: rest, _ :: more => topics_match rest more
  | some ts :: rest, t :: more => ts.contains t && topics_match rest more
  | some _ :: _, [] => false

/-- Modelled from the spec: the chain client's log query
(`query_logs(address_filter, topic_filter, block_range) -> [LogEntry]`, an
external collaborator): of the entries the client holds for the range, keep
those whose address is in the address filter (when present) and whose topics
satisfy every topic slot. -/
def query_logs (client : ClientT) (first_block last_block : Nat)
    (address : Option (List Nat)) (topics : List (Option (List Nat))) : List LogEntryT :=
  (client.logs_in_range first_block last_block).filter fun entry =>
    (match address with
     | none => true
     | some addrs => addrs.contains entry.address)
    && topics_match topics entry.topics

/-- `OnChainServiceContract::update`: if either weak reference is dead, do
nothing; if the chain is syncing, do nothing; otherwise resolve the registry
address (zero when absent) and, when it differs from the cached one, replace
the handle with a fresh one bound to the resolved address. -/
def update (env : Env) (st : ContractState) : ContractState :=
  match env.client, env.sync with
  | some client, some sync =>
    if sync.is_syncing client.queue_info then
      st
    else
      let service_contract_addr := client.registry_address.getD 0
      if st.address ≠ service_contract_addr then
        { address := service_contract_addr }
      else
        st
  | _, _ => st

/-- `OnChainServiceContract::is_actual`: cached address non-zero, and both
weak references live with the chain not syncing. -/
def is_actual (env : Env) (st : ContractState) : Bool :=
  st.address ≠ 0
    && match env.client, env.sync with
       | some client, some sync => !(sync.is_syncing client.queue_info)
       | _, _ => false

/-- `OnChainServiceContract::read_logs`: empty when the client weak reference
is dead; otherwise query the client with the address filter set to the cached
contract address and the first topic slot fixed to the event name hash, and
return each matching entry's topics. -/
def read_logs (env : Env) (st : ContractState) (first_block last_block : Nat) :
    List (List Nat) :=
  match env.client with
  | none => []
  | some client =>
    let contract_address := st.address
    let request_logs := query_logs client first_block last_block
      (some [contract_address])
      [some [SERVER_KEY_REQUESTED_EVENT_NAME_HASH env], none, none, none]
    request_logs.map fun log => log.topics

/-- `PendingRequestsIterator`: the client, this node's address, the current
request index, and the length sampled when enumeration began. -/
structure PendingRequestsIterator where
  client : ClientT
  self_address : Nat
  index : Nat
  length : Nat

/-- `PendingRequestsIterator::next`: stop when `index >= length`; otherwise
increment the index first, then issue the per-item chain call at the
pre-increment position (`index - 1` after the increment); a call failure
yields `None` with the index already advanced. -/
def PendingRequestsIterator.next (it : PendingRequestsIterator) :
    Option (Bool × ServiceTask) × PendingRequestsIterator :=
  if it.length ≤ it.index then
    (none, it)
  else
    let it' : PendingRequestsIterator := { it with index := it.index + 1 }
    match it.client.get_request it.self_address (it'.index - 1) with
    | Except.ok (server_key_id, threshold, is_confirmed) =>
      (some (is_confirmed, ServiceTask.GenerateServerKey server_key_id threshold), it')
    | Except.error _ => (none, it')

/-- Enumeration driver, fuelled: call `next` repeatedly, collecting items,
until it returns `None` (or fuel runs out). -/
def drainFuel : Nat → PendingRequestsIterator → List (Bool × ServiceTask)
  | 0, _ => []
  | n + 1, it =>
    match PendingRequestsIterator.next it with
    | (some item, it') => item :: drainFuel n it'
    | (none, _) => []

/-- Enumerate the iterator to exhaustion.  Each successful `next` raises the
index by one and preserves the length, so `length - index + 1` calls always
suffice to observe the terminating `None`. -/
def PendingRequestsIterator.drain (it : PendingRequestsIterator) :
    List (Bool × ServiceTask) :=
  drainFuel (it.length - it.index + 1) it

/-- `OnChainServiceContract::read_pending_requests`: `none` (empty sequence)
when the client weak reference is dead; otherwise the declared length is zero
for a zero cached address, and otherwise the decoded
`server_key_generation_requests_count` result with 0 on call failure. -/
def read_pending_requests (env : Env) (st : ContractState) :
    Option PendingRequestsIterator :=
  match env.client with
  | none => none
  | some client =>
    let length :=
      if st.address = 0 then 0
      else
        match client.requests_count with
        | Except.ok n => n
        | Except.error _ => 0
    some { client := client, self_address := env.self_address, index := 0, length := length }

/-- The item sequence a consumer observes from `read_pending_requests`. -/
def read_pending_list (env : Env) (st : ContractState) : List (Bool × ServiceTask) :=
  match read_pending_requests env st with
  | none => []
  | some it => it.drain

/-- The item produced for index `i` when the per-item call succeeds there:
the confirmed flag paired with `GenerateServerKey(server_key_id, threshold)`.
(The error branch is never reached under an all-calls-succeed hypothesis.) -/
def itemAt (client : ClientT) (self_address : Nat) (i : Nat) : Bool × ServiceTask :=
  match client.get_request self_address i with
  | Except.ok (server_key_id, threshold, is_confirmed) =>
    (is_confirmed, ServiceTask.GenerateServerKey server_key_id threshold)
  | Except.error _ => (false, ServiceTask.GenerateServerKey 0 0)

/-- `OnChainServiceContract::publish_server_key`: hash the key, sign the hash
(error propagated), encode the call (error propagated), then submit a
transaction only when the cached address is non-zero and the client weak
reference is live (submission error propagated).  The second component
records every transaction handed to `transact_contract`. -/
def publish_server_key (env : Env) (st : ContractState)
    (server_key_id : Nat) (server_key : Nat) :
    Except String Unit × List (Nat × Nat) :=
  let server_key_hash := env.keccak_key server_key
  match env.sign server_key_hash with
  | Except.error e => (Except.error e, [])
  | Except.ok signed_server_key =>
    match env.encode_server_key_generated_input server_key_id server_key signed_server_key with
    | Except.error e => (Except.error e, [])
    | Except.ok transaction_data =>
      if st.address ≠ 0 then
        match env.client with
        | some client =>
          match client.transact_contract st.address transaction_data with
          | Except.error e => (Except.error e, [(st.address, transaction_data)])
          | Except.ok _ => (Except.ok (), [(st.address, transaction_data)])
        | none => (Except.ok (), [])
      else
        (Except.ok (), [])

/-! Concrete fixtures used to instantiate the theorems on explicit inputs. -/

/-- A sync provider that reports the chain as fully synced. -/
def sampleSync : SyncProviderT := { is_syncing := fun _ => false }

/-- A minimal live client. -/
def sampleClient : ClientT :=
  { queue_info := 0
    registry_address := some 7
    logs_in_range := fun _ _ => []
    requests_count := Except.ok 0
    get_request := fun _ _ => Except.error "offline"
    transact_contract := fun _ _ => Except.ok 0 }

/-- A minimal live environment with deterministic hash, sign and encode. -/
def sampleEnv : Env :=
  { client := some sampleClient
    sync := some sampleSync
    keccak_str := fun _ => 11
    keccak_key := fun k => k + 1
    sign := fun h => Except.ok (h + 1)
    encode_server_key_generated_input := fun a b s => Except.ok (a + b + s)
    self_address := 3 }

/-- The environment after both weak references have died. -/
def deadEnv : Env := { sampleEnv with client := none, sync := none }

/-- A client with three pending requests, confirmed `[true, false, true]`. -/
def pendClient : ClientT :=
  { sampleClient with
    requests_count := Except.ok 3
    get_request := fun _ i => Except.ok (100 + i, 1, i != 1) }

/-- Environment wrapping `pendClient`. -/
def pendEnv : Env := { sampleEnv with client := some pendClient }

/-- The iterator `read_pending_requests` constructs over `pendClient`. -/
def pendIt : PendingRequestsIterator :=
  { client := pendClient, self_address := 3, index := 0, length := 3 }

/-- A client whose per-item call fails at index 0 but succeeds afterwards. -/
def fuseClient : ClientT :=
  { sampleClient with
    requests_count := Except.ok 2
    get_request := fun _ i =>
      if i = 0 then Except.error "boom" else Except.ok (8, 1, true) }

/-- An iterator over `fuseClient` with two pending requests. -/
def fuseIt : PendingRequestsIterator :=
  { client := fuseClient, self_address := 3, index := 0, length := 2 }

/-- Environment whose signer fails unconditionally. -/
def signFailEnv : Env :=
  { sampleEnv with sign := fun _ => Except.error "signerr" }

/-- Environment whose call codec fails unconditionally. -/
def encodeFailEnv : Env :=
  { sampleEnv with
    encode_server_key_generated_input := fun _ _ _ => Except.error "encerr" }

/-- A live client whose transaction submission fails. -/
def txFailClient : ClientT :=
  { sampleClient with transact_contract := fun _ _ => Except.error "txerr" }

/-- Environment wrapping `txFailClient`. -/
def txFailEnv : Env := { sampleEnv with client := some txFailClient }

/-- A client holding three raw log entries, of which exactly one has both the
contract address 5 and first topic 11. -/
def logClient : ClientT :=
  { sampleClient with
    logs_in_range := fun _ _ =>
      [ { address := 5, topics := [11, 42] }
      , { address := 6, topics := [11] }
      , { address := 5, topics := [12] } ] }

/-- Environment wrapping `logClient` (its `keccak_str` is constantly 11, so
the event name hash is 11). -/
def logEnv : Env := { sampleEnv with client := some logClient }

/-! Helper lemmas about the pending-requests iterator. -/

/-- When the index has reached the length, `next` yields `None` and leaves
the iterator unchanged. -/
theorem next_done (it : PendingRequestsIterator) (h : it.length ≤ it.index) :
    PendingRequestsIterator.next it = (none, it) := by
  simp [PendingRequestsIterator.next, h]

/-- A successful per-item call yields the wrapped item, with the index
advanced by one. -/
theorem next_ok (it : PendingRequestsIterator) (a b : Nat) (c : Bool)
    (h1 : it.index < it.length)
    (h2 : it.client.get_request it.self_address it.index = Except.ok (a, b, c)) :
    PendingRequestsIterator.next it =
      (some (c, ServiceTask.GenerateServerKey a b), { it with index := it.index + 1 }) := by
  simp [PendingRequestsIterator.next, Nat.not_le.mpr h1, Nat.add_sub_cancel, h2]

/-- A failed per-item call yields `None`, with the index nevertheless
advanced by one. -/
theorem next_err (it : PendingRequestsIterator) (e : String)
    (h1 : it.index < it.length)
    (h2 : it.client.get_request it.self_address it.index = Except.error e) :
    PendingRequestsIterator.next it = (none, { it with index := it.index + 1 }) := by
  simp [PendingRequestsIterator.next, Nat.not_le.mpr h1, Nat.add_sub_cancel, h2]

/-- The fuelled enumeration never yields more items than remain between the
index and the sampled length. -/
theorem drainFuel_length_le (n : Nat) :
    ∀ it : PendingRequestsIterator, (drainFuel n it).length ≤ it.length - it.index := by
  induction n with
  | zero => intro it; simp [drainFuel]
  | succ n ih =>
    intro it
    by_cases hdone : it.length ≤ it.index
    · simp [drainFuel, next_done it hdone]
    · push_neg at hdone
      cases h2 : it.client.get_request it.self_address it.index with
      | error e => simp [drainFuel, next_err it e hdone h2]
      | ok r =>
        obtain ⟨a, b, c⟩ := r
        have hrec : (drainFuel n { it with index := it.index + 1 }).length ≤
            it.length - (it.index + 1) := ih _
        simp only [drainFuel, next_ok it a b c hdone h2, List.length_cons]
        omega

/-- With enough fuel and every per-item call in range succeeding, the fuelled
enumeration yields exactly the wrapped items for indices `index, …, length-1`
in order. -/
theorem drainFuel_all_ok (n : Nat) :
    ∀ it : PendingRequestsIterator, it.length - it.index ≤ n →
      (∀ i, it.index ≤ i → i < it.length →
        ∃ r, it.client.get_request it.self_address i = Except.ok r) →
      drainFuel n it =
        (List.range' it.index (it.length - it.index)).map
          (itemAt it.client it.self_address) := by
  induction n with
  | zero =>
    intro it hn _
    have : it.length - it.index = 0 := Nat.le_zero.mp hn
    simp [drainFuel, this]
  | succ n ih =>
    intro it hn hok
    by_cases hdone : it.length ≤ it.index
    · have : it.length - it.index = 0 := Nat.sub_eq_zero_of_le hdone
      simp [drainFuel, next_done it hdone, this]
    · push_neg at hdone
      obtain ⟨⟨a, b, c⟩, h2⟩ := hok it.index (Nat.le_refl _) hdone
      have hrest := ih { it with index := it.index + 1 }
        (by simp; omega)
        (fun i hi hlt => hok i (Nat.le_of_succ_le hi) hlt)
      have hlen : it.length - it.index = (it.length - (it.index + 1)) + 1 := by omega
      simp only [drainFuel, next_ok it a b c hdone h2, hrest]
      rw [hlen, List.range'_succ]
      simp [itemAt, h2]

/-- If some per-item call at an index not yet passed fails, the fuelled
enumeration yields strictly fewer items than remain. -/
theorem drainFuel_length_lt (n : Nat) :
    ∀ it : PendingRequestsIterator,
      (∃ i, it.index ≤ i ∧ i < it.length ∧
        ∃ e, it.client.get_request it.self_address i = Except.error e) →
      (drainFuel n it).length < it.length - it.index := by
  induction n with
  | zero =>
    intro it ⟨i, hi, hlt, _⟩
    simp only [drainFuel, List.length_nil]
    omega
  | succ n ih =>
    intro it ⟨i, hi, hlt, e, herr⟩
    by_cases hdone : it.length ≤ it.index
    · omega
    · push_neg at hdone
      cases h2 : it.client.get_request it.self_address it.index with
      | error e' =>
        simp only [drainFuel, next_err it e' hdone h2, List.length_nil]
        omega
      | ok r =>
        obtain ⟨a, b, c⟩ := r
        have hne : i ≠ it.index := by
          intro hcontr
          rw [hcontr, h2] at herr
          exact Except.noConfusion herr
        have hrest := ih { it with index := it.index + 1 }
          ⟨i, by simp; omega, by simpa using hlt, e, herr⟩
        simp only [drainFuel, next_ok it a b c hdone h2, List.length_cons]
        simp at hrest
        omega

/-- Full enumeration of an iterator whose index has reached its length is
empty. -/
theorem drain_done (it : PendingRequestsIterator) (h : it.length ≤ it.index) :
    it.drain = [] := by
  simp [PendingRequestsIterator.drain, Nat.sub_eq_zero_of_le h, drainFuel, next_done it h]

/-- Three wildcard slots match any topic list. -/
theorem topics_match_wildcards (ts : List Nat) :
    topics_match [none, none, none] ts = true := by
  rcases ts with _ | ⟨a, _ | ⟨b, _ | ⟨c, rest⟩⟩⟩ <;> simp [topics_match]

/-- The filter used by `read_logs` matches exactly the topic lists whose head
is the event name hash. -/
theorem topics_match_event (h : Nat) (ts : List Nat) :
    topics_match [some [h], none, none, none] ts = true ↔ ts.head? = some h := by
  cases ts with
  | nil => simp [topics_match]
  | cons t more =>
    simp [topics_match, topics_match_wildcards]

/-! Theorems for the individual claims. -/

/-- C1: for every request id and server key, if the cached contract address
is zero and signing and encoding succeed, `publish_server_key` returns
success and submits no transaction to the chain client. -/
theorem publish_server_key_zero_address_drops (env : Env) (st : ContractState)
    (server_key_id server_key sig data : Nat)
    (h0 : st.address = 0)
    (hs : env.sign (env.keccak_key server_key) = Except.ok sig)
    (he : env.encode_server_key_generated_input server_key_id server_key sig
            = Except.ok data) :
    publish_server_key env st server_key_id server_key = (Except.ok (), []) := by
  simp [publish_server_key, hs, he, h0]

theorem publish_server_key_zero_address_drops_witness :
    publish_server_key sampleEnv { address := 0 } 5 9 = (Except.ok (), []) :=
  publish_server_key_zero_address_drops sampleEnv { address := 0 } 5 9 11 25
    rfl rfl rfl

/-- C2: `is_actual` is true iff the cached address is non-zero and both weak
references are live with the chain not syncing; it is false whenever the
address is zero, and false whenever syncing holds. -/
theorem is_actual_iff (env : Env) (st : ContractState) :
    (is_actual env st = true ↔
      st.address ≠ 0 ∧ ∃ client sync, env.client = some client ∧
        env.sync = some sync ∧ sync.is_syncing client.queue_info = false)
    ∧ (st.address = 0 → is_actual env st = false)
    ∧ (∀ client sync, env.client = some client → env.sync = some sync →
        sync.is_syncing client.queue_info = true → is_actual env st = false) := by
  refine ⟨?_, ?_, ?_⟩
  · unfold is_actual
    rcases hc : env.client with _ | client <;>
      rcases hs : env.sync with _ | sync <;>
        simp [and_assoc]
  · intro h0
    simp [is_actual, h0]
  · intro client sync hc hs hsync
    simp [is_actual, hc, hs, hsync]

theorem is_actual_iff_witness :
    (is_actual sampleEnv { address := 5 } = true ↔
      (5 : Nat) ≠ 0 ∧ ∃ client sync, sampleEnv.client = some client ∧
        sampleEnv.sync = some sync ∧ sync.is_syncing client.queue_info = false)
    ∧ ((5 : Nat) = 0 → is_actual sampleEnv { address := 5 } = false)
    ∧ (∀ client sync, sampleEnv.client = some client → sampleEnv.sync = some sync →
        sync.is_syncing client.queue_info = true →
        is_actual sampleEnv { address := 5 } = false) :=
  is_actual_iff sampleEnv { address := 5 }

/-- C3: for an iterator returned by `read_pending_requests` with declared
length L, enumeration yields at most L items; exactly the L items wrapped as
`(confirmed, GenerateServerKey(request id, threshold))` in index order
0..L-1 when every per-item call succeeds; and strictly fewer than L items
when some per-item call in range fails. -/
theorem read_pending_requests_enumeration (env : Env) (st : ContractState)
    (it : PendingRequestsIterator)
    (h : read_pending_requests env st = some it) :
    it.drain.length ≤ it.length
    ∧ ((∀ i, i < it.length →
          ∃ r, it.client.get_request it.self_address i = Except.ok r) →
        it.drain = (List.range it.length).map (itemAt it.client it.self_address))
    ∧ ((∃ i, i < it.length ∧
          ∃ e, it.client.get_request it.self_address i = Except.error e) →
        it.drain.length < it.length) := by
  have hidx : it.index = 0 := by
    cases hc : env.client with
    | none =>
      rw [read_pending_requests, hc] at h
      exact Option.noConfusion h
    | some client =>
      rw [read_pending_requests, hc] at h
      obtain rfl := (Option.some.inj h).symm
      rfl
  refine ⟨?_, ?_, ?_⟩
  · have := drainFuel_length_le (it.length - it.index + 1) it
    simpa [PendingRequestsIterator.drain, hidx] using this
  · intro hok
    have hall := drainFuel_all_ok (it.length - it.index + 1) it
      (Nat.le_succ _) (fun i _ hlt => hok i hlt)
    rw [PendingRequestsIterator.drain, hall, hidx]
    simp [List.range_eq_range']
  · intro hfail
    obtain ⟨i, hlt, e, herr⟩ := hfail
    have := drainFuel_length_lt (it.length - it.index + 1) it
      ⟨i, by omega, hlt, e, herr⟩
    simpa [PendingRequestsIterator.drain, hidx] using this

theorem read_pending_requests_enumeration_witness :
    pendIt.drain.length ≤ pendIt.length
    ∧ ((∀ i, i < pendIt.length →
          ∃ r, pendIt.client.get_request pendIt.self_address i = Except.ok r) →
        pendIt.drain =
          (List.range pendIt.length).map (itemAt pendIt.client pendIt.self_address))
    ∧ ((∃ i, i < pendIt.length ∧
          ∃ e, pendIt.client.get_request pendIt.self_address i = Except.error e) →
        pendIt.drain.length < pendIt.length) :=
  read_pending_requests_enumeration pendEnv { address := 5 } pendIt rfl

/-- C4: with a live client, every topic list yielded by `read_logs` has the
event name hash as its first topic and originates from a held log entry whose
address is the cached contract address; conversely every held entry with that
address and first topic is yielded (the remaining topic slots being
unconstrained). -/
theorem read_logs_filter_correct (env : Env) (st : ContractState)
    (first_block last_block : Nat) (client : ClientT)
    (hc : env.client = some client) :
    (∀ t ∈ read_logs env st first_block last_block,
       t.head? = some (SERVER_KEY_REQUESTED_EVENT_NAME_HASH env)
       ∧ ∃ e ∈ client.logs_in_range first_block last_block,
           e.address = st.address ∧ e.topics = t)
    ∧ (∀ e ∈ client.logs_in_range first_block last_block,
        e.address = st.address →
        e.topics.head? = some (SERVER_KEY_REQUESTED_EVENT_NAME_HASH env) →
        e.topics ∈ read_logs env st first_block last_block) := by
  constructor
  · intro t ht
    simp only [read_logs, hc, query_logs, List.mem_map, List.mem_filter] at ht
    obtain ⟨e, ⟨hmem, hpred⟩, rfl⟩ := ht
    rw [Bool.and_eq_true] at hpred
    obtain ⟨haddr, htop⟩ := hpred
    have haddr' : e.address = st.address := by
      simpa using haddr
    exact ⟨(topics_match_event _ _).mp htop, e, hmem, haddr', rfl⟩
  · intro e hmem haddr htop
    simp only [read_logs, hc, query_logs, List.mem_map, List.mem_filter]
    refine ⟨e, ⟨hmem, ?_⟩, rfl⟩
    rw [Bool.and_eq_true]
    constructor
    · simp [haddr]
    · exact (topics_match_event _ _).mpr htop

theorem read_logs_filter_correct_witness :
    (∀ t ∈ read_logs logEnv { address := 5 } 1 2,
       t.head? = some (SERVER_KEY_REQUESTED_EVENT_NAME_HASH logEnv)
       ∧ ∃ e ∈ logClient.logs_in_range 1 2,
           e.address = 5 ∧ e.topics = t)
    ∧ (∀ e ∈ logClient.logs_in_range 1 2,
        e.address = 5 →
        e.topics.head? = some (SERVER_KEY_REQUESTED_EVENT_NAME_HASH logEnv) →
        e.topics ∈ read_logs logEnv { address := 5 } 1 2) :=
  read_logs_filter_correct logEnv { address := 5 } 1 2 logClient rfl

/-- C5: `update` leaves the cached handle unchanged when the client or sync
weak reference is dead, when the chain is syncing, or when the resolved
registry address equals the cached one; it replaces the handle with one bound
to the resolved address exactly when both are live, the chain is synced, and
the resolved address differs. -/
theorem update_cases (env : Env) (st : ContractState) :
    (env.client = none → update env st = st)
    ∧ (env.sync = none → update env st = st)
    ∧ (∀ client sync, env.client = some client → env.sync = some sync →
        sync.is_syncing client.queue_info = true → update env st = st)
    ∧ (∀ client sync, env.client = some client → env.sync = some sync →
        sync.is_syncing client.queue_info = false →
        client.registry_address.getD 0 = st.address → update env st = st)
    ∧ (∀ client sync, env.client = some client → env.sync = some sync →
        sync.is_syncing client.queue_info = false →
        client.registry_address.getD 0 ≠ st.address →
        update env st = { address := client.registry_address.getD 0 }) := by
  refine ⟨?_, ?_, ?_, ?_, ?_⟩
  · intro h
    rcases hs : env.sync with _ | sync <;> simp [update, h, hs]
  · intro h
    rcases hc : env.client with _ | client <;> simp [update, h, hc]
  · intro client sync hc hs hsync
    simp [update, hc, hs, hsync]
  · intro client sync hc hs hsync heq
    simp [update, hc, hs, hsync, heq]
  · intro client sync hc hs hsync hne
    simp only [update, hc, hs, hsync, Bool.false_eq_true, if_false]
    rw [if_pos (Ne.symm hne)]

theorem update_cases_witness :
    (sampleEnv.client = none → update sampleEnv { address := 1 } = { address := 1 })
    ∧ (sampleEnv.sync = none → update sampleEnv { address := 1 } = { address := 1 })
    ∧ (∀ client sync, sampleEnv.client = some client → sampleEnv.sync = some sync →
        sync.is_syncing client.queue_info = true →
        update sampleEnv { address := 1 } = { address := 1 })
    ∧ (∀ client sync, sampleEnv.client = some client → sampleEnv.sync = some sync →
        sync.is_syncing client.queue_info = false →
        client.registry_address.getD 0 = 1 →
        update sampleEnv { address := 1 } = { address := 1 })
    ∧ (∀ client sync, sampleEnv.client = some client → sampleEnv.sync = some sync →
        sync.is_syncing client.queue_info = false →
        client.registry_address.getD 0 ≠ 1 →
        update sampleEnv { address := 1 } = { address := client.registry_address.getD 0 }) :=
  update_cases sampleEnv { address := 1 }

/-- C6: `publish_server_key` propagates hard failures: a signing failure is
returned immediately with no transaction submitted, an encoding failure is
returned immediately with no transaction submitted, and a submission failure
is returned as an error. -/
theorem publish_server_key_propagates_errors (env : Env) (st : ContractState)
    (server_key_id server_key : Nat) :
    (∀ e, env.sign (env.keccak_key server_key) = Except.error e →
        publish_server_key env st server_key_id server_key = (Except.error e, []))
    ∧ (∀ sig e, env.sign (env.keccak_key server_key) = Except.ok sig →
        env.encode_server_key_generated_input server_key_id server_key sig
          = Except.error e →
        publish_server_key env st server_key_id server_key = (Except.error e, []))
    ∧ (∀ sig data e client, env.sign (env.keccak_key server_key) = Except.ok sig →
        env.encode_server_key_generated_input server_key_id server_key sig
          = Except.ok data →
        st.address ≠ 0 → env.client = some client →
        client.transact_contract st.address data = Except.error e →
        (publish_server_key env st server_key_id server_key).1 = Except.error e) := by
  refine ⟨?_, ?_, ?_⟩
  · intro e hsign
    simp [publish_server_key, hsign]
  · intro sig e hsign henc
    simp [publish_server_key, hsign, henc]
  · intro sig data e client hsign henc h0 hc htx
    simp [publish_server_key, hsign, henc, h0, hc, htx]

theorem publish_server_key_propagates_errors_witness :
    publish_server_key signFailEnv { address := 7 } 5 9 = (Except.error "signerr", [])
    ∧ publish_server_key encodeFailEnv { address := 7 } 5 9 = (Except.error "encerr", [])
    ∧ (publish_server_key txFailEnv { address := 7 } 5 9).1 = Except.error "txerr" :=
  ⟨(publish_server_key_propagates_errors signFailEnv { address := 7 } 5 9).1
      "signerr" rfl,
   (publish_server_key_propagates_errors encodeFailEnv { address := 7 } 5 9).2.1
      11 "encerr" rfl rfl,
   (publish_server_key_propagates_errors txFailEnv { address := 7 } 5 9).2.2
      11 25 "txerr" txFailClient rfl rfl (by decide) rfl rfl⟩

/-- C7: when the client weak reference is dead, `read_logs` and
`read_pending_requests` both yield an empty sequence for every block range
and every cached-address state, and no error is propagated. -/
theorem dead_client_soft_empty (env : Env) (st : ContractState)
    (h : env.client = none) :
    (∀ first_block last_block, read_logs env st first_block last_block = [])
    ∧ read_pending_list env st = [] := by
  constructor
  · intro first_block last_block
    simp [read_logs, h]
  · simp [read_pending_list, read_pending_requests, h]

theorem dead_client_soft_empty_witness :
    (∀ first_block last_block, read_logs deadEnv { address := 9 } first_block last_block = [])
    ∧ read_pending_list deadEnv { address := 9 } = [] :=
  dead_client_soft_empty deadEnv { address := 9 } rfl

/-- C8: with a live client, `read_pending_requests` returns an iterator
starting at index 0 whose declared length is 0 when the cached address is
zero, and otherwise the decoded requests-count result with 0 substituted on
call failure; a zero cached address hence yields an empty sequence. -/
theorem read_pending_requests_length_rule (env : Env) (st : ContractState)
    (client : ClientT) (hc : env.client = some client) :
    (∃ it, read_pending_requests env st = some it ∧ it.index = 0 ∧
      it.length = (if st.address = 0 then 0
        else match client.requests_count with
          | Except.ok n => n
          | Except.error _ => 0))
    ∧ (st.address = 0 → read_pending_list env st = []) := by
  constructor
  · simp only [read_pending_requests, hc]
    exact ⟨_, rfl, rfl, rfl⟩
  · intro h0
    simp only [read_pending_list, read_pending_requests, hc, h0, if_pos]
    exact drain_done _ (Nat.le_refl 0)

theorem read_pending_requests_length_rule_witness :
    (∃ it, read_pending_requests pendEnv { address := 0 } = some it ∧ it.index = 0 ∧
      it.length = (if (0 : Nat) = 0 then 0
        else match pendClient.requests_count with
          | Except.ok n => n
          | Except.error _ => 0))
    ∧ ((0 : Nat) = 0 → read_pending_list pendEnv { address := 0 } = []) :=
  read_pending_requests_length_rule pendEnv { address := 0 } pendClient rfl

/-- C9: with a non-zero cached address but a dead client weak reference,
`publish_server_key` (after successful signing and encoding) returns success
and submits no transaction. -/
theorem publish_server_key_dead_client_drops (env : Env) (st : ContractState)
    (server_key_id server_key sig data : Nat)
    (h0 : st.address ≠ 0)
    (hc : env.client = none)
    (hs : env.sign (env.keccak_key server_key) = Except.ok sig)
    (he : env.encode_server_key_generated_input server_key_id server_key sig
            = Except.ok data) :
    publish_server_key env st server_key_id server_key = (Except.ok (), []) := by
  simp [publish_server_key, hs, he, h0, hc]

theorem publish_server_key_dead_client_drops_witness :
    publish_server_key deadEnv { address := 4 } 5 9 = (Except.ok (), []) :=
  publish_server_key_dead_client_drops deadEnv { address := 4 } 5 9 11 25
    (by decide) rfl rfl rfl

/-- C10: the iterator is not fused: when the per-item call at the current
index fails, `next` returns `None` with the index already advanced, and the
following `next` performs the call for the next index and can yield a further
item. -/
theorem pending_iterator_not_fused (it : PendingRequestsIterator)
    (e : String) (a b : Nat) (c : Bool)
    (h1 : it.index + 1 < it.length)
    (h2 : it.client.get_request it.self_address it.index = Except.error e)
    (h3 : it.client.get_request it.self_address (it.index + 1) = Except.ok (a, b, c)) :
    PendingRequestsIterator.next it = (none, { it with index := it.index + 1 })
    ∧ PendingRequestsIterator.next { it with index := it.index + 1 }
        = (some (c, ServiceTask.GenerateServerKey a b),
           { it with index := it.index + 1 + 1 }) := by
  constructor
  · exact next_err it e (Nat.lt_of_succ_lt h1) h2
  · exact next_ok { it with index := it.index + 1 } a b c h1 h3

theorem pending_iterator_not_fused_witness :
    PendingRequestsIterator.next fuseIt = (none, { fuseIt with index := 1 })
    ∧ PendingRequestsIterator.next { fuseIt with index := 1 }
        = (some (true, ServiceTask.GenerateServerKey 8 1),
           { fuseIt with index := 2 }) :=
  pending_iterator_not_fused fuseIt "boom" 8 1 true (by decide) rfl rfl

end SecretStore
